import Mathlib

/-!
# The JNI binding `analyzer_SSDeep.c`

A shallow embedding of the two native methods of `analyzer.SSDeep`
(`src/main/resources/analyzer_SSDeep.c`):

* `Java_analyzer_SSDeep_fuzzyCompare`
* `Java_analyzer_SSDeep_hashString`

The methods run against a `JNIEnv`, modelled as an explicit state, and call
the fuzzy hashing library declared in `fuzzy.h`, which is not part of the
source tree and is therefore a parameter (`Fuzzy`) of every definition.

Bytes and pointers are natural numbers. `int` and `jint` are both 32 bit
signed, so the value of `comp` is returned unchanged; it is an `Int` here.
-/

namespace SSDeep

/-! ## Java values -/

/-- A Java `char`, one UTF-16 code unit. -/
abbrev jchar := Fin 65536

/-- A Java string value: its sequence of UTF-16 code units. -/
abbrev jstring := List jchar

/-- The JNI type `jint`. -/
abbrev jint := Int

/-- A class handle, identified with the class descriptor it was found by. -/
abbrev jclass := String

/-! ## Modified UTF-8 (JNI specification, "Modified UTF-8 Strings") -/

/-- The modified UTF-8 bytes of one code unit: `U+0001..U+007F` take one byte,
`U+0000` and `U+0080..U+07FF` two bytes, everything else three bytes. -/
def utfOfChar (c : jchar) : List Nat :=
  if 1 ≤ c.val ∧ c.val ≤ 0x7F then [c.val]
  else if c.val ≤ 0x7FF then [0xC0 + c.val / 64, 0x80 + c.val % 64]
  else [0xE0 + c.val / 4096, 0x80 + c.val / 64 % 64, 0x80 + c.val % 64]

/-- The modified UTF-8 bytes of a Java string, without the terminating zero. -/
def utfChars : jstring → List Nat
  | [] => []
  | c :: s => utfOfChar c ++ utfChars s

/-- The code unit with the given number. -/
def toJchar (v : Nat) : jchar := ⟨v % 65536, Nat.mod_lt _ (by decide)⟩

/-- The Java string read from modified UTF-8 bytes. A byte that does not start
a sequence of the layout above is outside the JNI contract; it is taken as one
code unit, so that the function is total. -/
def stringOfUtf : List Nat → jstring
  | [] => []
  | [x] => [toJchar x]
  | [x, y] =>
    if 0xC0 ≤ x ∧ x < 0xE0 ∧ y / 64 = 2 then [toJchar (x % 32 * 64 + y % 64)]
    else toJchar x :: stringOfUtf [y]
  | x :: y :: z :: tl =>
    if 0xC0 ≤ x ∧ x < 0xE0 ∧ y / 64 = 2 then
      toJchar (x % 32 * 64 + y % 64) :: stringOfUtf (z :: tl)
    else if 0xE0 ≤ x ∧ x < 0xF0 ∧ y / 64 = 2 ∧ z / 64 = 2 then
      toJchar (x % 16 * 4096 + y % 64 * 64 + z % 64) :: stringOfUtf tl
    else toJchar x :: stringOfUtf (y :: z :: tl)

/-! ## C strings -/

/-- The C library function `strlen`: the number of bytes before the first zero
byte. -/
def strlen : List Nat → Nat
  | [] => 0
  | b :: m => if b = 0 then 0 else strlen m + 1

/-- The bytes a reader of a zero-terminated string sees: those before the
first zero byte. -/
def cstr : List Nat → List Nat
  | [] => []
  | b :: m => if b = 0 then [] else b :: cstr m

/-! ## The library of `fuzzy.h` -/

/-- The two library functions the binding calls. `fuzzy_compare` receives two
zero-terminated strings and returns an `int`. `fuzzy_hash_buf` receives the
`len` bytes at `buf` and `len`, and returns its status together with the bytes
it stored at the start of `result`; it cannot read `result`. The width of its
length parameter is fixed in `fuzzy.h`; lengths are unbounded here. -/
structure Fuzzy where
  fuzzy_compare : List Nat → List Nat → Int
  fuzzy_hash_buf : List Nat → Nat → Int × List Nat

/-! ## The JNI environment -/

/-- A native character buffer handed out by `GetStringUTFChars`. -/
structure NativeChars where
  ptr : Nat
  owner : jstring
  bytes : List Nat
deriving DecidableEq

/-- The calls a native method makes, in the order it makes them. -/
inductive Event where
  | GetStringUTFChars (s : jstring) (p : Nat)
  | ReleaseStringUTFChars (s : jstring) (p : Nat)
  | fuzzy_compare (p1 p2 : Nat)
  | fuzzy_hash_buf (p len : Nat)
  | FindClass (name : String)
  | ThrowNew (cls : jclass) (msg : String)
  | NewStringUTF (bytes : List Nat)
deriving DecidableEq

/-- Whether a call obtains or releases a native string. -/
def Event.touchesNative : Event → Bool
  | .GetStringUTFChars _ _ => true
  | .ReleaseStringUTFChars _ _ => true
  | _ => false

/-- The state behind a `JNIEnv *`: the native strings currently held, the next
free address, the pending exception and the calls made so far. -/
structure JNIEnv where
  held : List NativeChars
  next : Nat
  pending : Option (jclass × String)
  trace : List Event

/-- Append a call to the trace. -/
def JNIEnv.record (env : JNIEnv) (e : Event) : JNIEnv :=
  { env with trace := env.trace ++ [e] }

/-- The memory at a pointer: the bytes of the most recently obtained buffer
held at that address, nothing when no buffer is held there. -/
def JNIEnv.mem (env : JNIEnv) (p : Nat) : List Nat :=
  match env.held.find? (fun h => decide (h.ptr = p)) with
  | some h => h.bytes
  | none => []

/-- JNI `GetStringUTFChars(env, s, NULL)`: a fresh zero-terminated buffer with
the modified UTF-8 bytes of `s`. (The call is taken to succeed; the source
does not test its result.) -/
def GetStringUTFChars (env : JNIEnv) (s : jstring) : Nat × JNIEnv :=
  (env.next,
    { env with
      held := ⟨env.next, s, utfChars s ++ [0]⟩ :: env.held
      next := env.next + 1
      trace := env.trace ++ [Event.GetStringUTFChars s env.next] })

/-- JNI `ReleaseStringUTFChars(env, s, p)`: the buffer at `p` obtained from `s`
is no longer held. -/
def ReleaseStringUTFChars (env : JNIEnv) (s : jstring) (p : Nat) : JNIEnv :=
  { env with
    held := env.held.eraseP (fun h => decide (h.ptr = p ∧ h.owner = s))
    trace := env.trace ++ [Event.ReleaseStringUTFChars s p] }

/-- JNI `FindClass(env, name)`. -/
def FindClass (env : JNIEnv) (name : String) : jclass × JNIEnv :=
  (name, env.record (Event.FindClass name))

/-- JNI `ThrowNew(env, cls, msg)`: makes an exception of class `cls` pending;
control stays in the native method. -/
def ThrowNew (env : JNIEnv) (cls : jclass) (msg : String) : JNIEnv :=
  { env with
    pending := some (cls, msg)
    trace := env.trace ++ [Event.ThrowNew cls msg] }

/-- JNI `NewStringUTF(env, bytes)`: a Java string from the zero-terminated
modified UTF-8 string at `bytes`. A pending exception stays pending. -/
def NewStringUTF (env : JNIEnv) (bytes : List Nat) : jstring × JNIEnv :=
  (stringOfUtf (cstr bytes), env.record (Event.NewStringUTF (cstr bytes)))

/-! ## The native methods -/

/-- The native method `analyzer.SSDeep.fuzzyCompare` (source lines 22-34). -/
def Java_analyzer_SSDeep_fuzzyCompare (L : Fuzzy) (env : JNIEnv) (_c : jclass)
    (sig1 sig2 : jstring) : jint × JNIEnv :=
  let (cSig1, env) := GetStringUTFChars env sig1
  let (cSig2, env) := GetStringUTFChars env sig2
  let comp := L.fuzzy_compare (cstr (env.mem cSig1)) (cstr (env.mem cSig2))
  let env := env.record (Event.fuzzy_compare cSig1 cSig2)
  let env := ReleaseStringUTFChars env sig1 cSig1
  let env := ReleaseStringUTFChars env sig2 cSig2
  let env :=
    if comp < 0 then
      let (exClass, env) := FindClass env "java/lang/RuntimeException"
      ThrowNew env exClass "Hash comparison failed!"
    else env
  (comp, env)

/-- The native method `analyzer.SSDeep.hashString` (source lines 36-47).
`hash` holds the indeterminate initial bytes of the local array
`char hash[FUZZY_MAX_RESULT]`. -/
def Java_analyzer_SSDeep_hashString (L : Fuzzy) (hash : List Nat) (env : JNIEnv)
    (_c : jclass) (s : jstring) : jstring × JNIEnv :=
  let (cString, env) := GetStringUTFChars env s
  let len := strlen (env.mem cString)
  let (state, written) := L.fuzzy_hash_buf ((env.mem cString).take len) len
  let hash := written ++ hash.drop written.length
  let env := env.record (Event.fuzzy_hash_buf cString len)
  let env := ReleaseStringUTFChars env s cString
  let env :=
    if state ≠ 0 then
      let (exClass, env) := FindClass env "java/lang/RuntimeException"
      ThrowNew env exClass "Hashing failed!"
    else env
  NewStringUTF env hash

/-- The exception `fuzzyCompare` raises. -/
def compareFailure : jclass × String :=
  ("java/lang/RuntimeException", "Hash comparison failed!")

/-- The exception `hashString` raises. -/
def hashFailure : jclass × String :=
  ("java/lang/RuntimeException", "Hashing failed!")

/-- What the Java caller of a native method receives: the pending exception,
thrown when the method returns, or else the value returned. -/
def javaResult {α : Type} (r : α × JNIEnv) : Except (jclass × String) α :=
  match r.2.pending with
  | some e => Except.error e
  | none => Except.ok r.1

/-! ## The library contract -/

/-- Modelled from the spec: the range of `fuzzy_compare`, which is declared in
`fuzzy.h` and not part of the source tree. "`compare` always returns an integer
in [0,100]" or a reported error, which the binding reads as a negative value. -/
def CompareInRange (L : Fuzzy) : Prop :=
  ∀ a b, L.fuzzy_compare a b < 0 ∨ (0 ≤ L.fuzzy_compare a b ∧ L.fuzzy_compare a b ≤ 100)

/-- Modelled from the spec: the symmetry of `fuzzy_compare`, which is declared
in `fuzzy.h` and not part of the source tree. "`compare(d1, d2) ==
compare(d2, d1)` for all digest pairs." -/
def CompareSymmetric (L : Fuzzy) : Prop :=
  ∀ a b, L.fuzzy_compare a b = L.fuzzy_compare b a

/-- Modelled from the spec: the result of `fuzzy_hash_buf`, which is declared
in `fuzzy.h` and not part of the source tree. It "returns either a digest
string or an error": with status 0 it has stored a zero-terminated string. -/
def HashWritesDigest (L : Fuzzy) : Prop :=
  ∀ buf len, (L.fuzzy_hash_buf buf len).1 = 0 → 0 ∈ (L.fuzzy_hash_buf buf len).2

/-! ## Concrete inputs -/

/-- A small executable library at which the general statements are applied. It
rejects an empty digest and an empty buffer. -/
def toyFuzzy : Fuzzy where
  fuzzy_compare a b := if a = [] ∨ b = [] then -1 else if a = b then 100 else 0
  fuzzy_hash_buf _ len := if len = 0 then (-1, []) else (0, [51, 58, 65 + len % 26, 58, 0])

/-- A library whose calls all report an error and store nothing, as a library
does that cannot allocate its working state. -/
def failingFuzzy : Fuzzy where
  fuzzy_compare _ _ := -1
  fuzzy_hash_buf _ _ := (-1, [])

/-- A `JNIEnv` on entry to a native method: nothing held, no exception
pending. -/
def entryEnv : JNIEnv := ⟨[], 4096, none, []⟩

/-- The Java string "3:A:". -/
def sigA : jstring := [51, 58, 65, 58]

/-- The Java string "3:B:". -/
def sigB : jstring := [51, 58, 66, 58]

/-- The Java string with the three chars `a`, `U+0000`, `b`. -/
def nulString : jstring := [97, 0, 98]

/-- Some bytes the local array `hash` may hold before it is written: `AB`, a
zero byte, `C`. -/
def staleHash : List Nat := [65, 66, 0, 67]

/-! ## Modified UTF-8 strings contain no zero byte -/

theorem utfOfChar_pos (c : jchar) : ∀ b ∈ utfOfChar c, 0 < b ∧ b < 256 := by
  intro b hb
  have hc := c.isLt
  unfold utfOfChar at hb
  split_ifs at hb with h1 h2 <;> simp at hb <;> omega

theorem utfChars_pos (s : jstring) : ∀ b ∈ utfChars s, 0 < b ∧ b < 256 := by
  induction s with
  | nil => intro b hb; simp [utfChars] at hb
  | cons c s ih =>
    intro b hb
    simp only [utfChars, List.mem_append] at hb
    rcases hb with hb | hb
    · exact utfOfChar_pos c b hb
    · exact ih b hb

theorem strlen_terminated (l r : List Nat) (h : ∀ b ∈ l, 0 < b) :
    strlen (l ++ 0 :: r) = l.length := by
  induction l with
  | nil => simp [strlen]
  | cons b l ih =>
    have hb : b ≠ 0 := Nat.pos_iff_ne_zero.mp (h b (by simp))
    simp [strlen, hb, ih (fun x hx => h x (by simp [hx]))]

theorem cstr_terminated (l r : List Nat) (h : ∀ b ∈ l, 0 < b) :
    cstr (l ++ 0 :: r) = l := by
  induction l with
  | nil => simp [cstr]
  | cons b l ih =>
    have hb : b ≠ 0 := Nat.pos_iff_ne_zero.mp (h b (by simp))
    simp [cstr, hb, ih (fun x hx => h x (by simp [hx]))]

theorem strlen_utfChars (s : jstring) : strlen (utfChars s ++ [0]) = (utfChars s).length :=
  strlen_terminated _ [] (fun b hb => (utfChars_pos s b hb).1)

theorem cstr_utfChars (s : jstring) : cstr (utfChars s ++ [0]) = utfChars s :=
  cstr_terminated _ [] (fun b hb => (utfChars_pos s b hb).1)

/-! ## What the native methods compute -/

theorem fuzzyCompare_eval (L : Fuzzy) (env : JNIEnv) (c : jclass) (sig1 sig2 : jstring) :
    Java_analyzer_SSDeep_fuzzyCompare L env c sig1 sig2 =
      (L.fuzzy_compare (utfChars sig1) (utfChars sig2),
        { held := env.held
          next := env.next + 2
          pending :=
            if L.fuzzy_compare (utfChars sig1) (utfChars sig2) < 0 then some compareFailure
            else env.pending
          trace := env.trace ++
            [Event.GetStringUTFChars sig1 env.next,
              Event.GetStringUTFChars sig2 (env.next + 1),
              Event.fuzzy_compare env.next (env.next + 1),
              Event.ReleaseStringUTFChars sig1 env.next,
              Event.ReleaseStringUTFChars sig2 (env.next + 1)] ++
            if L.fuzzy_compare (utfChars sig1) (utfChars sig2) < 0 then
              [Event.FindClass "java/lang/RuntimeException",
                Event.ThrowNew "java/lang/RuntimeException" "Hash comparison failed!"]
            else [] }) := by
  simp only [Java_analyzer_SSDeep_fuzzyCompare, GetStringUTFChars, ReleaseStringUTFChars,
    FindClass, ThrowNew, JNIEnv.record, JNIEnv.mem, compareFailure]
  simp [cstr_utfChars]
  split_ifs <;> simp

theorem hashString_eval (L : Fuzzy) (hash : List Nat) (env : JNIEnv) (c : jclass)
    (s : jstring) :
    Java_analyzer_SSDeep_hashString L hash env c s =
      (stringOfUtf (cstr ((L.fuzzy_hash_buf (utfChars s) (utfChars s).length).2 ++
          hash.drop (L.fuzzy_hash_buf (utfChars s) (utfChars s).length).2.length)),
        { held := env.held
          next := env.next + 1
          pending :=
            if (L.fuzzy_hash_buf (utfChars s) (utfChars s).length).1 ≠ 0 then some hashFailure
            else env.pending
          trace := env.trace ++
            [Event.GetStringUTFChars s env.next,
              Event.fuzzy_hash_buf env.next (utfChars s).length,
              Event.ReleaseStringUTFChars s env.next] ++
            (if (L.fuzzy_hash_buf (utfChars s) (utfChars s).length).1 ≠ 0 then
              [Event.FindClass "java/lang/RuntimeException",
                Event.ThrowNew "java/lang/RuntimeException" "Hashing failed!"]
            else []) ++
            [Event.NewStringUTF (cstr ((L.fuzzy_hash_buf (utfChars s) (utfChars s).length).2 ++
              hash.drop (L.fuzzy_hash_buf (utfChars s) (utfChars s).length).2.length))] }) := by
  simp only [Java_analyzer_SSDeep_hashString, GetStringUTFChars, ReleaseStringUTFChars,
    FindClass, ThrowNew, NewStringUTF, JNIEnv.record, JNIEnv.mem, hashFailure]
  simp [strlen_utfChars]
  split_ifs <;> simp

/-! ## The codec is a round trip -/

theorem stringOfUtf_one (x : Nat) (rest : List Nat) (hx : x < 0xC0) :
    stringOfUtf (x :: rest) = toJchar x :: stringOfUtf rest := by
  match rest with
  | [] => simp [stringOfUtf]
  | [y] =>
    have h : ¬ (0xC0 ≤ x ∧ x < 0xE0 ∧ y / 64 = 2) := by omega
    simp only [stringOfUtf, if_neg h]
  | y :: z :: tl =>
    have h : ¬ (0xC0 ≤ x ∧ x < 0xE0 ∧ y / 64 = 2) := by omega
    have h2 : ¬ (0xE0 ≤ x ∧ x < 0xF0 ∧ y / 64 = 2 ∧ z / 64 = 2) := by omega
    simp only [stringOfUtf, if_neg h, if_neg h2]

theorem stringOfUtf_two (x y : Nat) (rest : List Nat)
    (h : 0xC0 ≤ x ∧ x < 0xE0 ∧ y / 64 = 2) :
    stringOfUtf (x :: y :: rest) = toJchar (x % 32 * 64 + y % 64) :: stringOfUtf rest := by
  match rest with
  | [] => simp only [stringOfUtf, if_pos h]
  | z :: tl => simp only [stringOfUtf, if_pos h]

theorem stringOfUtf_three (x y z : Nat) (rest : List Nat)
    (h : 0xE0 ≤ x ∧ x < 0xF0 ∧ y / 64 = 2 ∧ z / 64 = 2) :
    stringOfUtf (x :: y :: z :: rest) =
      toJchar (x % 16 * 4096 + y % 64 * 64 + z % 64) :: stringOfUtf rest := by
  have h1 : ¬ (0xC0 ≤ x ∧ x < 0xE0 ∧ y / 64 = 2) := by omega
  simp only [stringOfUtf, if_neg h1, if_pos h]

theorem stringOfUtf_utfOfChar (c : jchar) (rest : List Nat) :
    stringOfUtf (utfOfChar c ++ rest) = c :: stringOfUtf rest := by
  have hc := c.isLt
  unfold utfOfChar
  split_ifs with h1 h2
  · rw [List.singleton_append, stringOfUtf_one _ _ (by omega)]
    congr 1
    apply Fin.ext
    simp only [toJchar]
    omega
  · rw [List.cons_append, List.singleton_append, stringOfUtf_two _ _ _ (by omega)]
    congr 1
    apply Fin.ext
    simp only [toJchar]
    omega
  · rw [List.cons_append, List.cons_append, List.singleton_append,
      stringOfUtf_three _ _ _ _ (by omega)]
    congr 1
    apply Fin.ext
    simp only [toJchar]
    omega

/-- Reading back the modified UTF-8 bytes of a Java string gives the string. -/
theorem stringOfUtf_utfChars (s : jstring) : stringOfUtf (utfChars s) = s := by
  induction s with
  | nil => simp [utfChars, stringOfUtf]
  | cons c s ih => rw [utfChars, stringOfUtf_utfOfChar, ih]

/-! ## A zero-terminated result hides what follows it -/

theorem cstr_append_of_mem (w r : List Nat) (h : 0 ∈ w) : cstr (w ++ r) = cstr w := by
  induction w with
  | nil => simp at h
  | cons b w ih =>
    by_cases hb : b = 0
    · simp [cstr, hb]
    · have hw : 0 ∈ w := by
        rcases List.mem_cons.mp h with h0 | h0
        · exact absurd h0.symm hb
        · exact h0
      simp [cstr, hb, ih hw]

/-! ## `fuzzyCompare` -/

/-- C1: `Java_analyzer_SSDeep_fuzzyCompare`, entered with no exception pending,
leaves `RuntimeException("Hash comparison failed!")` pending exactly when
`fuzzy_compare` on the marshalled digests returns a negative value, and leaves
no exception pending exactly when the value is non-negative; in particular the
value 0 raises nothing. -/
theorem fuzzyCompare_raises_iff_negative (L : Fuzzy) (env : JNIEnv) (c : jclass)
    (sig1 sig2 : jstring) (hentry : env.pending = none) :
    ((Java_analyzer_SSDeep_fuzzyCompare L env c sig1 sig2).2.pending = some compareFailure ↔
        L.fuzzy_compare (utfChars sig1) (utfChars sig2) < 0) ∧
    ((Java_analyzer_SSDeep_fuzzyCompare L env c sig1 sig2).2.pending = none ↔
        0 ≤ L.fuzzy_compare (utfChars sig1) (utfChars sig2)) ∧
    (L.fuzzy_compare (utfChars sig1) (utfChars sig2) = 0 →
        (Java_analyzer_SSDeep_fuzzyCompare L env c sig1 sig2).2.pending = none) := by
  rw [fuzzyCompare_eval]
  simp only [hentry]
  refine ⟨?_, ?_, ?_⟩
  · split_ifs with h <;> simp [h]
  · split_ifs with h
    · simp [h]
    · simp [not_lt.mp h]
  · intro h0
    simp [h0]

/-- The statement of C1 at an empty first digest, which `toyFuzzy` rejects. -/
theorem fuzzyCompare_raises_iff_negative_witness :
    entryEnv.pending = none ∧
    ((Java_analyzer_SSDeep_fuzzyCompare toyFuzzy entryEnv "analyzer/SSDeep"
        [] sigA).2.pending = some compareFailure ↔
      toyFuzzy.fuzzy_compare (utfChars []) (utfChars sigA) < 0) :=
  ⟨rfl, (fuzzyCompare_raises_iff_negative toyFuzzy entryEnv "analyzer/SSDeep" [] sigA rfl).1⟩

/-- C2: the `jint` returned by `Java_analyzer_SSDeep_fuzzyCompare` is the value
of `fuzzy_compare` on the marshalled `sig1` and the marshalled `sig2`, in that
order, unaltered. -/
theorem fuzzyCompare_returns_library_value (L : Fuzzy) (env : JNIEnv) (c : jclass)
    (sig1 sig2 : jstring) :
    (Java_analyzer_SSDeep_fuzzyCompare L env c sig1 sig2).1 =
      L.fuzzy_compare (utfChars sig1) (utfChars sig2) := by
  rw [fuzzyCompare_eval]

/-- C5: when `fuzzy_compare` keeps to its range, a call of
`Java_analyzer_SSDeep_fuzzyCompare` that leaves no exception pending returns a
value in [0,100]. -/
theorem fuzzyCompare_score_in_range (L : Fuzzy) (hL : CompareInRange L) (env : JNIEnv)
    (c : jclass) (sig1 sig2 : jstring)
    (hok : (Java_analyzer_SSDeep_fuzzyCompare L env c sig1 sig2).2.pending = none) :
    0 ≤ (Java_analyzer_SSDeep_fuzzyCompare L env c sig1 sig2).1 ∧
      (Java_analyzer_SSDeep_fuzzyCompare L env c sig1 sig2).1 ≤ 100 := by
  rw [fuzzyCompare_eval] at hok ⊢
  simp only at hok ⊢
  have hnn : 0 ≤ L.fuzzy_compare (utfChars sig1) (utfChars sig2) := by
    by_contra hneg
    rw [if_pos (not_le.mp hneg)] at hok
    exact Option.noConfusion hok
  rcases hL (utfChars sig1) (utfChars sig2) with h | h
  · omega
  · exact h

/-- The library `toyFuzzy` keeps to the range. -/
theorem toyFuzzy_inRange : CompareInRange toyFuzzy := by
  intro a b
  simp only [toyFuzzy]
  split_ifs <;> simp

/-- The statement of C5 at two equal digests. -/
theorem fuzzyCompare_score_in_range_witness :
    CompareInRange toyFuzzy ∧
    (Java_analyzer_SSDeep_fuzzyCompare toyFuzzy entryEnv "analyzer/SSDeep"
      sigA sigA).2.pending = none ∧
    0 ≤ (Java_analyzer_SSDeep_fuzzyCompare toyFuzzy entryEnv "analyzer/SSDeep" sigA sigA).1 ∧
    (Java_analyzer_SSDeep_fuzzyCompare toyFuzzy entryEnv "analyzer/SSDeep" sigA sigA).1 ≤ 100 :=
  ⟨toyFuzzy_inRange, by decide,
    fuzzyCompare_score_in_range toyFuzzy toyFuzzy_inRange entryEnv "analyzer/SSDeep" sigA sigA
      (by decide)⟩

/-- C6: when `fuzzy_compare` is symmetric, `Java_analyzer_SSDeep_fuzzyCompare`
on `(d1, d2)` and on `(d2, d1)` returns the same value and leaves the same
exception, or none, pending. -/
theorem fuzzyCompare_symmetric (L : Fuzzy) (hL : CompareSymmetric L) (env : JNIEnv)
    (c : jclass) (d1 d2 : jstring) :
    (Java_analyzer_SSDeep_fuzzyCompare L env c d1 d2).1 =
        (Java_analyzer_SSDeep_fuzzyCompare L env c d2 d1).1 ∧
    (Java_analyzer_SSDeep_fuzzyCompare L env c d1 d2).2.pending =
        (Java_analyzer_SSDeep_fuzzyCompare L env c d2 d1).2.pending := by
  rw [fuzzyCompare_eval, fuzzyCompare_eval]
  simp only [hL (utfChars d1) (utfChars d2), and_self]

/-- The library `toyFuzzy` is symmetric. -/
theorem toyFuzzy_symmetric : CompareSymmetric toyFuzzy := by
  intro a b
  simp only [toyFuzzy, or_comm, eq_comm]

/-- The statement of C6 at two different digests. -/
theorem fuzzyCompare_symmetric_witness :
    CompareSymmetric toyFuzzy ∧
    (Java_analyzer_SSDeep_fuzzyCompare toyFuzzy entryEnv "analyzer/SSDeep" sigA sigB).1 =
      (Java_analyzer_SSDeep_fuzzyCompare toyFuzzy entryEnv "analyzer/SSDeep" sigB sigA).1 :=
  ⟨toyFuzzy_symmetric,
    (fuzzyCompare_symmetric toyFuzzy toyFuzzy_symmetric entryEnv "analyzer/SSDeep" sigA sigB).1⟩

/-- C8: when `fuzzy_compare` reports an error on the two marshalled digests (a
negative value), `Java_analyzer_SSDeep_fuzzyCompare` leaves
`RuntimeException("Hash comparison failed!")` pending and the integer it
returns is not a score in [0,100]. -/
theorem fuzzyCompare_error_is_raised (L : Fuzzy) (env : JNIEnv) (c : jclass)
    (sig1 sig2 : jstring) (hbad : L.fuzzy_compare (utfChars sig1) (utfChars sig2) < 0) :
    (Java_analyzer_SSDeep_fuzzyCompare L env c sig1 sig2).2.pending = some compareFailure ∧
    ¬ (0 ≤ (Java_analyzer_SSDeep_fuzzyCompare L env c sig1 sig2).1 ∧
        (Java_analyzer_SSDeep_fuzzyCompare L env c sig1 sig2).1 ≤ 100) := by
  rw [fuzzyCompare_eval]
  refine ⟨by simp only [if_pos hbad], ?_⟩
  rintro ⟨h0, _⟩
  exact absurd hbad (not_lt.mpr h0)

/-- The statement of C8 at an empty first digest. -/
theorem fuzzyCompare_error_is_raised_witness :
    toyFuzzy.fuzzy_compare (utfChars []) (utfChars sigA) < 0 ∧
    (Java_analyzer_SSDeep_fuzzyCompare toyFuzzy entryEnv "analyzer/SSDeep"
      [] sigA).2.pending = some compareFailure :=
  ⟨by decide,
    (fuzzyCompare_error_is_raised toyFuzzy entryEnv "analyzer/SSDeep" [] sigA (by decide)).1⟩

/-! ## `hashString` -/

/-- C3: `Java_analyzer_SSDeep_hashString`, entered with no exception pending,
leaves `RuntimeException("Hashing failed!")` pending exactly when
`fuzzy_hash_buf` on the marshalled bytes of `s` returns a non-zero status, and
leaves no exception pending exactly when the status is zero. -/
theorem hashString_raises_iff_nonzero (L : Fuzzy) (hash : List Nat) (env : JNIEnv)
    (c : jclass) (s : jstring) (hentry : env.pending = none) :
    ((Java_analyzer_SSDeep_hashString L hash env c s).2.pending = some hashFailure ↔
        (L.fuzzy_hash_buf (utfChars s) (utfChars s).length).1 ≠ 0) ∧
    ((Java_analyzer_SSDeep_hashString L hash env c s).2.pending = none ↔
        (L.fuzzy_hash_buf (utfChars s) (utfChars s).length).1 = 0) := by
  rw [hashString_eval]
  simp only [hentry]
  by_cases h : (L.fuzzy_hash_buf (utfChars s) (utfChars s).length).1 = 0
  · simp [h]
  · simp [h]

/-- The statement of C3 at the empty string, which `toyFuzzy` rejects. -/
theorem hashString_raises_iff_nonzero_witness :
    entryEnv.pending = none ∧
    ((Java_analyzer_SSDeep_hashString toyFuzzy staleHash entryEnv "analyzer/SSDeep"
        []).2.pending = some hashFailure ↔
      (toyFuzzy.fuzzy_hash_buf (utfChars []) (utfChars []).length).1 ≠ 0) :=
  ⟨rfl,
    (hashString_raises_iff_nonzero toyFuzzy staleHash entryEnv "analyzer/SSDeep" [] rfl).1⟩

/-- C4: when `fuzzy_hash_buf` reports success and has stored a zero-terminated
digest, `Java_analyzer_SSDeep_hashString` has handed it every marshalled byte
of `s`: `strlen` of the marshalled string, the length passed, is its full byte
length, because modified UTF-8 holds no zero byte. The string returned is the
digest stored, whatever `hash` held before, and no exception is raised. -/
theorem hashString_digest_of_whole_buffer (L : Fuzzy) (hash : List Nat) (env : JNIEnv)
    (c : jclass) (s : jstring)
    (hok : (L.fuzzy_hash_buf (utfChars s) (utfChars s).length).1 = 0)
    (hterm : 0 ∈ (L.fuzzy_hash_buf (utfChars s) (utfChars s).length).2) :
    strlen (utfChars s ++ [0]) = (utfChars s).length ∧
    (Java_analyzer_SSDeep_hashString L hash env c s).2.trace =
      env.trace ++
        [Event.GetStringUTFChars s env.next,
          Event.fuzzy_hash_buf env.next (utfChars s).length,
          Event.ReleaseStringUTFChars s env.next,
          Event.NewStringUTF (cstr (L.fuzzy_hash_buf (utfChars s) (utfChars s).length).2)] ∧
    (Java_analyzer_SSDeep_hashString L hash env c s).1 =
      stringOfUtf (cstr (L.fuzzy_hash_buf (utfChars s) (utfChars s).length).2) ∧
    (Java_analyzer_SSDeep_hashString L hash env c s).2.pending = env.pending := by
  rw [hashString_eval]
  simp [hok, cstr_append_of_mem _ _ hterm, strlen_utfChars]

/-- The statement of C4 at a string that holds the char `U+0000`. -/
theorem hashString_digest_of_whole_buffer_witness :
    (toyFuzzy.fuzzy_hash_buf (utfChars nulString) (utfChars nulString).length).1 = 0 ∧
    0 ∈ (toyFuzzy.fuzzy_hash_buf (utfChars nulString) (utfChars nulString).length).2 ∧
    strlen (utfChars nulString ++ [0]) = (utfChars nulString).length :=
  ⟨by decide, by decide,
    (hashString_digest_of_whole_buffer toyFuzzy staleHash entryEnv "analyzer/SSDeep" nulString
      (by decide) (by decide)).1⟩

/-- C7: when `fuzzy_hash_buf` stores a zero-terminated digest on success, two
calls of `Java_analyzer_SSDeep_hashString` on the same string, each entered with
no exception pending, give the Java caller the same result whatever else
differs (the state of the `JNIEnv`, the class argument, the stale bytes of
`hash`): they leave the same exception, or none, pending, and when none is
pending they return the same string. -/
theorem hashString_deterministic (L : Fuzzy) (hL : HashWritesDigest L)
    (hash1 hash2 : List Nat) (env1 env2 : JNIEnv) (c1 c2 : jclass) (s : jstring)
    (h1 : env1.pending = none) (h2 : env2.pending = none) :
    javaResult (Java_analyzer_SSDeep_hashString L hash1 env1 c1 s) =
        javaResult (Java_analyzer_SSDeep_hashString L hash2 env2 c2 s) ∧
    (Java_analyzer_SSDeep_hashString L hash1 env1 c1 s).2.pending =
        (Java_analyzer_SSDeep_hashString L hash2 env2 c2 s).2.pending ∧
    ((Java_analyzer_SSDeep_hashString L hash1 env1 c1 s).2.pending = none →
      (Java_analyzer_SSDeep_hashString L hash1 env1 c1 s).1 =
        (Java_analyzer_SSDeep_hashString L hash2 env2 c2 s).1) := by
  rw [hashString_eval, hashString_eval]
  simp only [javaResult, h1, h2, true_and]
  by_cases hok : (L.fuzzy_hash_buf (utfChars s) (utfChars s).length).1 = 0
  · have hz := hL _ _ hok
    simp [hok, cstr_append_of_mem _ _ hz]
  · simp [hok]

/-- The library `toyFuzzy` stores a zero-terminated digest on success. -/
theorem toyFuzzy_writesDigest : HashWritesDigest toyFuzzy := by
  intro buf len
  simp only [toyFuzzy]
  split_ifs <;> simp

/-- The statement of C7 at two different states of the `JNIEnv` and of `hash`. -/
theorem hashString_deterministic_witness :
    HashWritesDigest toyFuzzy ∧ entryEnv.pending = none ∧
    (⟨[⟨7, sigB, [1, 0]⟩], 9, none, [Event.FindClass "x"]⟩ : JNIEnv).pending = none ∧
    javaResult (Java_analyzer_SSDeep_hashString toyFuzzy staleHash entryEnv "analyzer/SSDeep"
        sigA) =
      javaResult (Java_analyzer_SSDeep_hashString toyFuzzy [] ⟨[⟨7, sigB, [1, 0]⟩], 9, none,
        [Event.FindClass "x"]⟩ "analyzer/SSDeep" sigA) :=
  ⟨toyFuzzy_writesDigest, rfl, rfl,
    (hashString_deterministic toyFuzzy toyFuzzy_writesDigest staleHash [] entryEnv
      ⟨[⟨7, sigB, [1, 0]⟩], 9, none, [Event.FindClass "x"]⟩
      "analyzer/SSDeep" "analyzer/SSDeep" sigA rfl rfl).1⟩

/-- C9: the code at a call that fails. With a library that reports an error and
stores nothing, `Java_analyzer_SSDeep_hashString` leaves
`RuntimeException("Hashing failed!")` pending and still calls `NewStringUTF` on
`hash`: it returns the string `AB` made of the stale bytes of the array. -/
theorem hashString_builds_string_after_failure :
    (failingFuzzy.fuzzy_hash_buf (utfChars sigA) (utfChars sigA).length).1 ≠ 0 ∧
    (Java_analyzer_SSDeep_hashString failingFuzzy staleHash entryEnv "analyzer/SSDeep"
      sigA).2.pending = some hashFailure ∧
    (Java_analyzer_SSDeep_hashString failingFuzzy staleHash entryEnv "analyzer/SSDeep"
      sigA).1 = [65, 66] ∧
    (Java_analyzer_SSDeep_hashString failingFuzzy staleHash entryEnv "analyzer/SSDeep"
      sigA).2.trace =
      [Event.GetStringUTFChars sigA 4096,
        Event.fuzzy_hash_buf 4096 4,
        Event.ReleaseStringUTFChars sigA 4096,
        Event.FindClass "java/lang/RuntimeException",
        Event.ThrowNew "java/lang/RuntimeException" "Hashing failed!",
        Event.NewStringUTF [65, 66]] := by
  decide

/-- With a non-zero status `Java_analyzer_SSDeep_hashString` raises the
exception and then returns the string `NewStringUTF` reads from `hash`. -/
theorem hashString_after_failure (L : Fuzzy) (hash : List Nat) (env : JNIEnv) (c : jclass)
    (s : jstring) (hfail : (L.fuzzy_hash_buf (utfChars s) (utfChars s).length).1 ≠ 0) :
    (Java_analyzer_SSDeep_hashString L hash env c s).2.pending = some hashFailure ∧
    (Java_analyzer_SSDeep_hashString L hash env c s).1 =
      stringOfUtf (cstr ((L.fuzzy_hash_buf (utfChars s) (utfChars s).length).2 ++
        hash.drop (L.fuzzy_hash_buf (utfChars s) (utfChars s).length).2.length)) := by
  rw [hashString_eval]
  simp only [if_pos hfail, and_self]

/-! ## Native strings -/

/-- C10: in both native methods every native string obtained with
`GetStringUTFChars` is released once, with `ReleaseStringUTFChars` on the same
Java string and pointer, after the library call and before anything else: the
calls that follow (`FindClass`, `ThrowNew`, `NewStringUTF`) touch no native
string. The native strings held after the call are those held before it. -/
theorem native_strings_released (L : Fuzzy) (hash : List Nat) (env : JNIEnv) (c : jclass)
    (sig1 sig2 s : jstring) :
    (∃ rest : List Event,
      (Java_analyzer_SSDeep_fuzzyCompare L env c sig1 sig2).2.trace =
        env.trace ++
          [Event.GetStringUTFChars sig1 env.next,
            Event.GetStringUTFChars sig2 (env.next + 1),
            Event.fuzzy_compare env.next (env.next + 1),
            Event.ReleaseStringUTFChars sig1 env.next,
            Event.ReleaseStringUTFChars sig2 (env.next + 1)] ++ rest ∧
      ∀ e ∈ rest, e.touchesNative = false) ∧
    (Java_analyzer_SSDeep_fuzzyCompare L env c sig1 sig2).2.held = env.held ∧
    (∃ rest : List Event,
      (Java_analyzer_SSDeep_hashString L hash env c s).2.trace =
        env.trace ++
          [Event.GetStringUTFChars s env.next,
            Event.fuzzy_hash_buf env.next (utfChars s).length,
            Event.ReleaseStringUTFChars s env.next] ++ rest ∧
      ∀ e ∈ rest, e.touchesNative = false) ∧
    (Java_analyzer_SSDeep_hashString L hash env c s).2.held = env.held := by
  rw [fuzzyCompare_eval, hashString_eval]
  simp only [List.append_assoc]
  refine ⟨⟨_, rfl, ?_⟩, trivial, ⟨_, rfl, ?_⟩, trivial⟩
  · intro e he
    split_ifs at he
    · simp only [List.mem_cons, List.mem_singleton, List.not_mem_nil, or_false] at he
      rcases he with rfl | rfl <;> rfl
    · simp at he
  · intro e he
    simp only [List.mem_append, List.mem_singleton] at he
    rcases he with he | rfl
    · split_ifs at he
      · simp only [List.mem_cons, List.mem_singleton, List.not_mem_nil, or_false] at he
        rcases he with rfl | rfl <;> rfl
      · simp at he
    · rfl

end SSDeep
